import Mathlib

/-!
Verification of the SuggestGuard snapshot-diffing and trend-detection core.

The definitions below are a shallow embedding of the Python sources:

* `suggestguard/analyzers/diff.py` — `DiffAnalyzer.compare_snapshots` and
  `DiffAnalyzer.detect_trends`;
* `suggestguard/database.py` — the suggestion table, `upsert_suggestion`,
  and the time-windowed read queries used by `detect_trends`;
* `suggestguard/scanner.py` — the event ordering of `ScanEngine.scan_brand`
  and the shape of the per-brand scan reports.

Python dicts `{"text": ..., "position": ...}` become the record type `Rec`;
`None` becomes `Option.none`; SQLite rows become `SugRow`; timestamps are
seconds (`Nat`), with the `DATE(...)` component modelled by `dateOf`.
-/

namespace SuggestGuard

/-- A suggestion record as consumed by `DiffAnalyzer.compare_snapshots`:
a mandatory `"text"` key and an optional `"position"` key. -/
structure Rec where
  text : String
  position : Option Int
deriving DecidableEq, Repr

/-- An entry of the `position_changes` output list:
`{"text": ..., "old_position": ..., "new_position": ...}`. -/
structure PosChange where
  text : String
  old_position : Int
  new_position : Int
deriving DecidableEq, Repr

/-- The `summary` sub-dict of the diff report. -/
structure Summary where
  new_count : Nat
  disappeared_count : Nat
  position_change_count : Nat
  unchanged_count : Nat
  total_previous : Nat
  total_current : Nat
deriving DecidableEq, Repr

/-- The full report returned by `compare_snapshots`. -/
structure DiffReport where
  new_suggestions : List Rec
  disappeared : List Rec
  position_changes : List PosChange
  unchanged : List Rec
  summary : Summary
deriving DecidableEq, Repr

/-- The text keys of a record list (`[s["text"] for s in l]`). -/
def texts (l : List Rec) : List String :=
  l.map Rec.text

/-- Membership of a text key in a record list's key set
(`t in {s["text"] for s in l}`). -/
def memText (l : List Rec) (t : String) : Bool :=
  l.any (fun s => s.text == t)

/-- Lookup in the dict `{s["text"]: s for s in l}`: the *last* record with
the given text wins, as with Python dict construction. -/
def mapLookup : List Rec → String → Option Rec
  | [], _ => none
  | s :: rest, t =>
    match mapLookup rest t with
    | some r => some r
    | none => if s.text == t then some s else none

/-- `prev_map[text].get("position")`: the old rank of a text, via the
last-wins map of the previous list. -/
def oldPosOf (previous : List Rec) (t : String) : Option Int :=
  (mapLookup previous t).bind Rec.position

/-- The body of the common-key classification from `compare_snapshots`:
produces `some` position-change entry when both ranks are non-null and
differ (`old_pos is not None and new_pos is not None and old_pos != new_pos`),
and `none` (meaning the record falls into `unchanged`) otherwise. -/
def mkChange (previous : List Rec) (s : Rec) : Option PosChange :=
  match oldPosOf previous s.text, s.position with
  | some op, some np =>
    if op ≠ np then some { text := s.text, old_position := op, new_position := np } else none
  | _, _ => none

/-- The `for s in current` loop of `compare_snapshots`: records whose text
is not a common key are skipped; each remaining record is appended either
to `position_changes` or to `unchanged`, preserving iteration order. -/
def classifyCommon (previous : List Rec) (comB : String → Bool) : List Rec → List PosChange × List Rec
  | [] => ([], [])
  | s :: rest =>
    let r := classifyCommon previous comB rest
    if comB s.text then
      match mkChange previous s with
      | some c => (c :: r.1, r.2)
      | none => (r.1, s :: r.2)
    else r

/-- `DiffAnalyzer.compare_snapshots` (diff.py, lines 41–87). -/
def compare_snapshots (previous current : List Rec) : DiffReport :=
  let new_suggestions := current.filter (fun s => memText current s.text && ! memText previous s.text)
  let disappeared := previous.filter (fun s => memText previous s.text && ! memText current s.text)
  let pcUnch := classifyCommon previous (fun t => memText previous t && memText current t) current
  { new_suggestions := new_suggestions
    disappeared := disappeared
    position_changes := pcUnch.1
    unchanged := pcUnch.2
    summary :=
      { new_count := new_suggestions.length
        disappeared_count := disappeared.length
        position_change_count := pcUnch.1.length
        unchanged_count := pcUnch.2.length
        total_previous := previous.length
        total_current := current.length } }

/-- The number of distinct text keys common to both inputs
(`len(prev_texts & curr_texts)`). -/
def commonKeyCount (previous current : List Rec) : Nat :=
  ((texts current).dedup.filter (fun t => memText previous t)).length

/-- Exactly one of three propositions holds. -/
def exactlyOne (a b c : Prop) : Prop :=
  (a ∧ ¬ b ∧ ¬ c) ∨ (¬ a ∧ b ∧ ¬ c) ∨ (¬ a ∧ ¬ b ∧ c)

-- ── basic lemmas about the diff embedding ─────────────────────────────

theorem memText_iff {l : List Rec} {t : String} : memText l t = true ↔ t ∈ texts l := by
  simp only [memText, texts, List.any_eq_true, beq_iff_eq, List.mem_map]

theorem memText_of_mem {l : List Rec} {s : Rec} (h : s ∈ l) : memText l s.text = true :=
  memText_iff.mpr (List.mem_map.mpr ⟨s, h, rfl⟩)

theorem mapLookup_eq_none {l : List Rec} {t : String} (h : t ∉ texts l) :
    mapLookup l t = none := by
  induction l with
  | nil => rfl
  | cons a rest ih =>
    simp only [texts, List.map_cons, List.mem_cons, not_or] at h
    have hat : ¬ (a.text = t) := fun he => h.1 he.symm
    simp [mapLookup, ih h.2, hat]

theorem mapLookup_self {l : List Rec} (hn : (texts l).Nodup) {s : Rec} (h : s ∈ l) :
    mapLookup l s.text = some s := by
  induction l with
  | nil => cases h
  | cons a rest ih =>
    have hn' : (texts rest).Nodup := (by simpa [texts] using hn : ((a.text :: texts rest).Nodup)).of_cons
    rcases List.mem_cons.mp h with rfl | hmem
    · have : s.text ∉ texts rest := by
        have := (by simpa [texts] using hn : ((s.text :: texts rest).Nodup))
        exact (List.nodup_cons.mp this).1
      simp [mapLookup, mapLookup_eq_none this]
    · simp [mapLookup, ih hn' hmem]

theorem mem_texts_filter {l : List Rec} {p : Rec → Bool} {t : String} :
    t ∈ texts (l.filter p) ↔ ∃ s, s ∈ l ∧ p s = true ∧ s.text = t := by
  simp [texts, List.mem_map, List.mem_filter, and_assoc]

theorem mkChange_text {previous : List Rec} {s : Rec} {c : PosChange}
    (h : mkChange previous s = some c) : c.text = s.text := by
  unfold mkChange at h
  rcases hop : oldPosOf previous s.text with _ | op <;> rcases hnp : s.position with _ | np <;>
    simp [hop, hnp] at h
  by_cases hne : op ≠ np
  · simp [hne] at h
    simp [← h]
  · simp [hne] at h

theorem classifyCommon_lengths (previous : List Rec) (comB : String → Bool) (l : List Rec) :
    (classifyCommon previous comB l).1.length + (classifyCommon previous comB l).2.length
      = (l.filter (fun s => comB s.text)).length := by
  induction l with
  | nil => rfl
  | cons a rest ih =>
    by_cases h : comB a.text
    · rcases hc : mkChange previous a with _ | c <;>
        simp [classifyCommon, h, hc, List.filter_cons] <;> omega
    · simp [classifyCommon, h, List.filter_cons, ih]

theorem mem_classifyCommon_fst {previous : List Rec} {comB : String → Bool} {l : List Rec}
    {c : PosChange} :
    c ∈ (classifyCommon previous comB l).1
      ↔ ∃ s, s ∈ l ∧ comB s.text = true ∧ mkChange previous s = some c := by
  induction l with
  | nil => simp [classifyCommon]
  | cons a rest ih =>
    by_cases h : comB a.text
    · rcases hc : mkChange previous a with _ | c0 <;>
        simp only [classifyCommon, h, hc, if_true, List.mem_cons] <;> rw [ih] <;>
        constructor
      · rintro ⟨s, hs, hcs, hms⟩
        exact ⟨s, .inr hs, hcs, hms⟩
      · rintro ⟨s, rfl | hs, hcs, hms⟩
        · rw [hc] at hms; cases hms
        · exact ⟨s, hs, hcs, hms⟩
      · rintro (rfl | ⟨s, hs, hcs, hms⟩)
        · exact ⟨a, .inl rfl, h, hc⟩
        · exact ⟨s, .inr hs, hcs, hms⟩
      · rintro ⟨s, rfl | hs, hcs, hms⟩
        · rw [hc] at hms; exact .inl (Option.some_injective _ hms.symm)
        · exact .inr ⟨s, hs, hcs, hms⟩
    · simp only [classifyCommon, if_neg h]
      rw [ih]
      constructor
      · rintro ⟨s, hs, hcs, hms⟩
        exact ⟨s, List.mem_cons.mpr (.inr hs), hcs, hms⟩
      · rintro ⟨s, hs, hcs, hms⟩
        rcases List.mem_cons.mp hs with rfl | hs'
        · exact absurd hcs (by simp [h])
        · exact ⟨s, hs', hcs, hms⟩

theorem mem_classifyCommon_snd {previous : List Rec} {comB : String → Bool} {l : List Rec}
    {s : Rec} :
    s ∈ (classifyCommon previous comB l).2
      ↔ s ∈ l ∧ comB s.text = true ∧ mkChange previous s = none := by
  induction l with
  | nil => simp [classifyCommon]
  | cons a rest ih =>
    by_cases h : comB a.text
    · rcases hc : mkChange previous a with _ | c0 <;>
        simp only [classifyCommon, h, hc, if_true, List.mem_cons] <;> rw [ih] <;>
        constructor
      · rintro (rfl | ⟨hs, hcs, hms⟩)
        · exact ⟨.inl rfl, h, hc⟩
        · exact ⟨.inr hs, hcs, hms⟩
      · rintro ⟨rfl | hs, hcs, hms⟩
        · exact .inl rfl
        · exact .inr ⟨hs, hcs, hms⟩
      · rintro ⟨hs, hcs, hms⟩
        exact ⟨.inr hs, hcs, hms⟩
      · rintro ⟨rfl | hs, hcs, hms⟩
        · rw [hc] at hms; cases hms
        · exact ⟨hs, hcs, hms⟩
    · simp only [classifyCommon, if_neg h]
      rw [ih]
      constructor
      · rintro ⟨hs, hcs, hms⟩
        exact ⟨List.mem_cons.mpr (.inr hs), hcs, hms⟩
      · rintro ⟨hs, hcs, hms⟩
        rcases List.mem_cons.mp hs with rfl | hs'
        · exact absurd hcs (by simp [h])
        · exact ⟨hs', hcs, hms⟩

theorem mem_texts_classifyCommon_fst {previous : List Rec} {comB : String → Bool} {l : List Rec}
    {t : String} :
    t ∈ (classifyCommon previous comB l).1.map PosChange.text
      ↔ ∃ s, s ∈ l ∧ s.text = t ∧ comB t = true ∧ (mkChange previous s).isSome := by
  simp only [List.mem_map]
  constructor
  · rintro ⟨c, hc, rfl⟩
    obtain ⟨s, hs, hcs, hms⟩ := mem_classifyCommon_fst.mp hc
    have ht := mkChange_text hms
    exact ⟨s, hs, ht.symm, ht ▸ hcs, by simp [hms]⟩
  · rintro ⟨s, hs, rfl, hcs, hms⟩
    obtain ⟨c, hc⟩ := Option.isSome_iff_exists.mp hms
    exact ⟨c, mem_classifyCommon_fst.mpr ⟨s, hs, hcs, hc⟩, mkChange_text hc⟩

theorem mem_texts_classifyCommon_snd {previous : List Rec} {comB : String → Bool} {l : List Rec}
    {t : String} :
    t ∈ texts (classifyCommon previous comB l).2
      ↔ ∃ s, s ∈ l ∧ s.text = t ∧ comB t = true ∧ mkChange previous s = none := by
  simp only [texts, List.mem_map]
  constructor
  · rintro ⟨s, hs, rfl⟩
    obtain ⟨hl, hcs, hms⟩ := mem_classifyCommon_snd.mp hs
    exact ⟨s, hl, rfl, hcs, hms⟩
  · rintro ⟨s, hs, rfl, hcs, hms⟩
    exact ⟨s, mem_classifyCommon_snd.mpr ⟨hs, hcs, hms⟩, rfl⟩

theorem text_inj {l : List Rec} (hn : (texts l).Nodup) {s s' : Rec}
    (hs : s ∈ l) (hs' : s' ∈ l) (he : s.text = s'.text) : s = s' :=
  List.inj_on_of_nodup_map (by simpa [texts] using hn) hs hs' he

theorem new_texts_iff (previous current : List Rec) (t : String) :
    t ∈ texts (compare_snapshots previous current).new_suggestions
      ↔ t ∈ texts current ∧ memText previous t = false := by
  show t ∈ texts (current.filter fun s => memText current s.text && ! memText previous s.text) ↔ _
  rw [mem_texts_filter]
  constructor
  · rintro ⟨s, hs, hcond, rfl⟩
    simp only [Bool.and_eq_true, Bool.not_eq_true'] at hcond
    exact ⟨List.mem_map.mpr ⟨s, hs, rfl⟩, hcond.2⟩
  · rintro ⟨ht, hf⟩
    obtain ⟨s, hs, rfl⟩ := List.mem_map.mp ht
    exact ⟨s, hs, by simp [memText_of_mem hs, hf], rfl⟩

theorem disappeared_texts_iff (previous current : List Rec) (t : String) :
    t ∈ texts (compare_snapshots previous current).disappeared
      ↔ t ∈ texts previous ∧ memText current t = false := by
  show t ∈ texts (previous.filter fun s => memText previous s.text && ! memText current s.text) ↔ _
  rw [mem_texts_filter]
  constructor
  · rintro ⟨s, hs, hcond, rfl⟩
    simp only [Bool.and_eq_true, Bool.not_eq_true'] at hcond
    exact ⟨List.mem_map.mpr ⟨s, hs, rfl⟩, hcond.2⟩
  · rintro ⟨ht, hf⟩
    obtain ⟨s, hs, rfl⟩ := List.mem_map.mp ht
    exact ⟨s, hs, by simp [memText_of_mem hs, hf], rfl⟩

theorem pc_texts_iff (previous current : List Rec) (hc : (texts current).Nodup)
    {t : String} {s : Rec} (hs : s ∈ current) (hst : s.text = t) :
    t ∈ (compare_snapshots previous current).position_changes.map PosChange.text
      ↔ memText previous t = true ∧ (mkChange previous s).isSome = true := by
  show t ∈ (classifyCommon previous (fun u => memText previous u && memText current u) current).1.map
      PosChange.text ↔ _
  rw [mem_texts_classifyCommon_fst]
  constructor
  · rintro ⟨s', hs', hst', hcom, hms⟩
    obtain rfl : s' = s := text_inj hc hs' hs (hst'.trans hst.symm)
    simp only [Bool.and_eq_true] at hcom
    exact ⟨hcom.1, hms⟩
  · rintro ⟨hp, hms⟩
    exact ⟨s, hs, hst, by simp [hp, hst ▸ memText_of_mem hs], hms⟩

theorem unch_texts_iff (previous current : List Rec) (hc : (texts current).Nodup)
    {t : String} {s : Rec} (hs : s ∈ current) (hst : s.text = t) :
    t ∈ texts (compare_snapshots previous current).unchanged
      ↔ memText previous t = true ∧ mkChange previous s = none := by
  show t ∈ texts (classifyCommon previous (fun u => memText previous u && memText current u) current).2
      ↔ _
  rw [mem_texts_classifyCommon_snd]
  constructor
  · rintro ⟨s', hs', hst', hcom, hms⟩
    obtain rfl : s' = s := text_inj hc hs' hs (hst'.trans hst.symm)
    simp only [Bool.and_eq_true] at hcom
    exact ⟨hcom.1, hms⟩
  · rintro ⟨hp, hms⟩
    exact ⟨s, hs, hst, by simp [hp, hst ▸ memText_of_mem hs], hms⟩

theorem pc_texts_sub (previous current : List Rec) {t : String}
    (h : t ∈ (compare_snapshots previous current).position_changes.map PosChange.text) :
    memText previous t = true ∧ memText current t = true := by
  have h' : t ∈ (classifyCommon previous (fun u => memText previous u && memText current u)
      current).1.map PosChange.text := h
  obtain ⟨s, _, _, hcom, _⟩ := mem_texts_classifyCommon_fst.mp h'
  exact Bool.and_eq_true _ _ |>.mp hcom

theorem unch_texts_sub (previous current : List Rec) {t : String}
    (h : t ∈ texts (compare_snapshots previous current).unchanged) :
    memText previous t = true ∧ memText current t = true := by
  have h' : t ∈ texts (classifyCommon previous (fun u => memText previous u && memText current u)
      current).2 := h
  obtain ⟨s, _, _, hcom, _⟩ := mem_texts_classifyCommon_snd.mp h'
  exact Bool.and_eq_true _ _ |>.mp hcom

/-- Claim C1 (amended): provided the text keys within each input list are
pairwise distinct, the four partitions of `compare_snapshots` are complete
and disjoint: `new + disappeared + moved + unchanged` equals
`common keys + new + disappeared`; every text key of `current` lies in
exactly one of new/moved/unchanged, and every text key of `previous` lies
in exactly one of disappeared/moved/unchanged. -/
theorem c1_partition_completeness (previous current : List Rec)
    (hc : (texts current).Nodup) :
    ((compare_snapshots previous current).summary.new_count
        + (compare_snapshots previous current).summary.disappeared_count
        + (compare_snapshots previous current).summary.position_change_count
        + (compare_snapshots previous current).summary.unchanged_count
      = commonKeyCount previous current
        + (compare_snapshots previous current).summary.new_count
        + (compare_snapshots previous current).summary.disappeared_count)
    ∧ (∀ t, t ∈ texts current →
        exactlyOne (t ∈ texts (compare_snapshots previous current).new_suggestions)
          (t ∈ (compare_snapshots previous current).position_changes.map PosChange.text)
          (t ∈ texts (compare_snapshots previous current).unchanged))
    ∧ (∀ t, t ∈ texts previous →
        exactlyOne (t ∈ texts (compare_snapshots previous current).disappeared)
          (t ∈ (compare_snapshots previous current).position_changes.map PosChange.text)
          (t ∈ texts (compare_snapshots previous current).unchanged)) := by
  refine ⟨?_, ?_, ?_⟩
  · have hfc : current.filter (fun s => memText previous s.text && memText current s.text)
        = current.filter (fun s => memText previous s.text) :=
      List.filter_congr (fun s hs => by simp [memText_of_mem hs])
    have hck : commonKeyCount previous current
        = (current.filter (fun s => memText previous s.text)).length := by
      unfold commonKeyCount
      rw [hc.dedup]
      simp only [texts]
      rw [List.filter_map, List.length_map]
      rfl
    have hsum : (compare_snapshots previous current).summary.position_change_count
        + (compare_snapshots previous current).summary.unchanged_count
        = commonKeyCount previous current := by
      calc (compare_snapshots previous current).summary.position_change_count
            + (compare_snapshots previous current).summary.unchanged_count
          = (current.filter
              (fun s => (fun u => memText previous u && memText current u) s.text)).length :=
            classifyCommon_lengths previous (fun u => memText previous u && memText current u)
              current
        _ = (current.filter (fun s => memText previous s.text)).length := by rw [← hfc]
        _ = commonKeyCount previous current := hck.symm
    omega
  · intro t ht
    obtain ⟨s, hs, hst⟩ := List.mem_map.mp ht
    have hnew := new_texts_iff previous current t
    have hpcl := pc_texts_iff previous current hc hs hst
    have hunch := unch_texts_iff previous current hc hs hst
    by_cases hprev : memText previous t = true
    · rcases hms : mkChange previous s with _ | c
      · refine Or.inr (Or.inr ⟨?_, ?_, hunch.mpr ⟨hprev, hms⟩⟩)
        · intro ha
          rw [hnew] at ha
          rw [ha.2] at hprev
          cases hprev
        · intro hb
          rw [hpcl] at hb
          rw [hms] at hb
          cases hb.2
      · refine Or.inr (Or.inl ⟨?_, hpcl.mpr ⟨hprev, by rw [hms]; rfl⟩, ?_⟩)
        · intro ha
          rw [hnew] at ha
          rw [ha.2] at hprev
          cases hprev
        · intro hcᵤ
          rw [hunch] at hcᵤ
          rw [hms] at hcᵤ
          cases hcᵤ.2
    · have hpf : memText previous t = false := by
        cases hb : memText previous t
        · rfl
        · exact absurd hb hprev
      refine Or.inl ⟨hnew.mpr ⟨ht, hpf⟩, ?_, ?_⟩
      · intro hb
        rw [hpcl] at hb
        exact hprev hb.1
      · intro hcᵤ
        rw [hunch] at hcᵤ
        exact hprev hcᵤ.1
  · intro t ht
    have hdis := disappeared_texts_iff previous current t
    have hprev : memText previous t = true := memText_iff.mpr ht
    by_cases hcur : memText current t = true
    · have htc : t ∈ texts current := memText_iff.mp hcur
      obtain ⟨s, hs, hst⟩ := List.mem_map.mp htc
      have hpcl := pc_texts_iff previous current hc hs hst
      have hunch := unch_texts_iff previous current hc hs hst
      have hnd : ¬ t ∈ texts (compare_snapshots previous current).disappeared := by
        intro ha
        rw [hdis] at ha
        rw [ha.2] at hcur
        cases hcur
      rcases hms : mkChange previous s with _ | c
      · refine Or.inr (Or.inr ⟨hnd, ?_, hunch.mpr ⟨hprev, hms⟩⟩)
        intro hb
        rw [hpcl] at hb
        rw [hms] at hb
        cases hb.2
      · refine Or.inr (Or.inl ⟨hnd, hpcl.mpr ⟨hprev, by rw [hms]; rfl⟩, ?_⟩)
        intro hcᵤ
        rw [hunch] at hcᵤ
        rw [hms] at hcᵤ
        cases hcᵤ.2
    · have hcf : memText current t = false := by
        cases hb : memText current t
        · rfl
        · exact absurd hb hcur
      refine Or.inl ⟨hdis.mpr ⟨ht, hcf⟩, ?_, ?_⟩
      · intro hb
        exact hcur (pc_texts_sub previous current hb).2
      · intro hcᵤ
        exact hcur (unch_texts_sub previous current hcᵤ).2

/-- A previous snapshot with three ranked suggestions, used as a concrete
diff input. -/
def prevMixed : List Rec :=
  [{ text := "a", position := some 1 }, { text := "b", position := some 2 },
   { text := "c", position := some 3 }]

/-- A current snapshot exercising all four diff partitions against
`prevMixed`: "a" unchanged, "b" moved, "c" disappeared, "d" new. -/
def currMixed : List Rec :=
  [{ text := "a", position := some 1 }, { text := "b", position := some 5 },
   { text := "d", position := some 2 }]

/-- Witness for C1: `c1_partition_completeness` applied to the concrete
pair `prevMixed`/`currMixed`. -/
theorem c1_partition_completeness_witness :
    (texts currMixed).Nodup
    ∧ (((compare_snapshots prevMixed currMixed).summary.new_count
          + (compare_snapshots prevMixed currMixed).summary.disappeared_count
          + (compare_snapshots prevMixed currMixed).summary.position_change_count
          + (compare_snapshots prevMixed currMixed).summary.unchanged_count
        = commonKeyCount prevMixed currMixed
          + (compare_snapshots prevMixed currMixed).summary.new_count
          + (compare_snapshots prevMixed currMixed).summary.disappeared_count)
      ∧ (∀ t, t ∈ texts currMixed →
          exactlyOne (t ∈ texts (compare_snapshots prevMixed currMixed).new_suggestions)
            (t ∈ (compare_snapshots prevMixed currMixed).position_changes.map PosChange.text)
            (t ∈ texts (compare_snapshots prevMixed currMixed).unchanged))
      ∧ (∀ t, t ∈ texts prevMixed →
          exactlyOne (t ∈ texts (compare_snapshots prevMixed currMixed).disappeared)
            (t ∈ (compare_snapshots prevMixed currMixed).position_changes.map PosChange.text)
            (t ∈ texts (compare_snapshots prevMixed currMixed).unchanged))) :=
  ⟨by decide, c1_partition_completeness prevMixed currMixed (by decide)⟩

/-- A list whose single text key "a" occurs twice with different ranks; the
duplicate makes the raw classification loop of `compare_snapshots` emit the
key both as a position change and as unchanged. -/
def dupCurr : List Rec :=
  [{ text := "a", position := some 1 }, { text := "a", position := some 2 }]

/-- A previous list holding the text key "a" once. -/
def dupPrev : List Rec :=
  [{ text := "a", position := some 1 }]

/-- Counterexample to C1 as stated: with the duplicated key "a" in
`current`, `|moved| + |unchanged| = 2` exceeds the single common key, so
`|new| + |disappeared| + |moved| + |unchanged| ≠ |common| + |new| +
|disappeared|`, and the key "a" appears in both the moved and the unchanged
partitions rather than in exactly one. -/
theorem c1_counterexample :
    ¬ (((compare_snapshots dupPrev dupCurr).summary.new_count
          + (compare_snapshots dupPrev dupCurr).summary.disappeared_count
          + (compare_snapshots dupPrev dupCurr).summary.position_change_count
          + (compare_snapshots dupPrev dupCurr).summary.unchanged_count
        = commonKeyCount dupPrev dupCurr
          + (compare_snapshots dupPrev dupCurr).summary.new_count
          + (compare_snapshots dupPrev dupCurr).summary.disappeared_count)
      ∧ (∀ t, t ∈ texts dupCurr →
          exactlyOne (t ∈ texts (compare_snapshots dupPrev dupCurr).new_suggestions)
            (t ∈ (compare_snapshots dupPrev dupCurr).position_changes.map PosChange.text)
            (t ∈ texts (compare_snapshots dupPrev dupCurr).unchanged))) := by
  intro h
  exact absurd h.1 (by decide)

theorem mkChange_isSome_iff {previous : List Rec} {s : Rec} :
    (mkChange previous s).isSome = true
      ↔ ∃ op np, oldPosOf previous s.text = some op ∧ s.position = some np ∧ op ≠ np := by
  unfold mkChange
  rcases hop : oldPosOf previous s.text with _ | op
  · simp [hop]
  · rcases hnp : s.position with _ | np
    · simp [hop, hnp]
    · by_cases hne : op = np
      · simp [hop, hnp, hne]
      · simp [hop, hnp, hne]

/-- Claim C2: for a record of `current` whose text key also occurs in
`previous`, a null rank on either side sends the record to `unchanged` and
keeps its key out of `position_changes`; the key enters `position_changes`
precisely when both sides carry a non-null rank and the ranks differ. -/
theorem c2_rank_null_fallthrough (previous current : List Rec)
    (hc : (texts current).Nodup) (s : Rec) (hs : s ∈ current)
    (hcom : memText previous s.text = true) :
    ((oldPosOf previous s.text = none ∨ s.position = none) →
      s ∈ (compare_snapshots previous current).unchanged
      ∧ s.text ∉ (compare_snapshots previous current).position_changes.map PosChange.text)
    ∧ (s.text ∈ (compare_snapshots previous current).position_changes.map PosChange.text
        ↔ ∃ op np, oldPosOf previous s.text = some op ∧ s.position = some np ∧ op ≠ np) := by
  have hcomB : ((fun u => memText previous u && memText current u) s.text) = true := by
    simp [hcom, memText_of_mem hs]
  constructor
  · intro hnull
    have hmk : mkChange previous s = none := by
      rcases hnull with h | h
      · simp [mkChange, h]
      · rcases hop : oldPosOf previous s.text with _ | op <;> simp [mkChange, h, hop]
    refine ⟨?_, ?_⟩
    · show s ∈ (classifyCommon previous
        (fun u => memText previous u && memText current u) current).2
      exact mem_classifyCommon_snd.mpr ⟨hs, hcomB, hmk⟩
    · intro hb
      rw [pc_texts_iff previous current hc hs rfl] at hb
      rw [hmk] at hb
      cases hb.2
  · rw [pc_texts_iff previous current hc hs rfl, mkChange_isSome_iff]
    constructor
    · rintro ⟨_, h⟩
      exact h
    · intro h
      exact ⟨hcom, h⟩

/-- A previous snapshot whose only record has a null rank. -/
def prevNullRank : List Rec := [{ text := "a", position := none }]

/-- A current snapshot whose only record has a rank; against
`prevNullRank` the pair must fall through to unchanged. -/
def currRanked : List Rec := [{ text := "a", position := some 2 }]

/-- Witness for C2: `c2_rank_null_fallthrough` applied to
`prevNullRank`/`currRanked` at the record with text "a". -/
theorem c2_rank_null_fallthrough_witness :
    (texts currRanked).Nodup
    ∧ ({ text := "a", position := some 2 } : Rec) ∈ currRanked
    ∧ memText prevNullRank "a" = true
    ∧ (((oldPosOf prevNullRank "a" = none ∨ (some 2 : Option Int) = none) →
        ({ text := "a", position := some 2 } : Rec)
            ∈ (compare_snapshots prevNullRank currRanked).unchanged
        ∧ "a" ∉ (compare_snapshots prevNullRank currRanked).position_changes.map PosChange.text)
      ∧ ("a" ∈ (compare_snapshots prevNullRank currRanked).position_changes.map PosChange.text
          ↔ ∃ op np, oldPosOf prevNullRank "a" = some op ∧ (some 2 : Option Int) = some np
              ∧ op ≠ np)) :=
  ⟨by decide, by decide, by decide,
    c2_rank_null_fallthrough prevNullRank currRanked (by decide)
      ({ text := "a", position := some 2 } : Rec) (by decide) (by decide)⟩

theorem classifyCommon_id (previous : List Rec) (comB : String → Bool) (l : List Rec)
    (h : ∀ s ∈ l, comB s.text = true ∧ mkChange previous s = none) :
    classifyCommon previous comB l = ([], l) := by
  induction l with
  | nil => rfl
  | cons a rest ih =>
    obtain ⟨h1, h2⟩ := h a (.head _)
    simp [classifyCommon, h1, h2, ih (fun s hs => h s (.tail _ hs))]

/-- Claim C3 (amended): provided the list's text keys are pairwise
distinct, comparing a list against an identical copy of itself yields zero
new, zero disappeared, zero moved, and an unchanged partition equal to the
whole input. -/
theorem c3_self_compare (L : List Rec) (h : (texts L).Nodup) :
    (compare_snapshots L L).summary.new_count = 0
    ∧ (compare_snapshots L L).summary.disappeared_count = 0
    ∧ (compare_snapshots L L).summary.position_change_count = 0
    ∧ (compare_snapshots L L).summary.unchanged_count = L.length
    ∧ (compare_snapshots L L).unchanged = L := by
  have hfilter : L.filter (fun s => memText L s.text && ! memText L s.text) = [] :=
    List.filter_eq_nil_iff.mpr (fun s _ => by simp)
  have hmk : ∀ s ∈ L, mkChange L s = none := by
    intro s hs
    have hl := mapLookup_self h hs
    unfold mkChange oldPosOf
    rw [hl]
    rcases hsp : s.position with _ | np <;> simp [hsp]
  have hclass : classifyCommon L (fun t => memText L t && memText L t) L = ([], L) :=
    classifyCommon_id L _ L (fun s hs => ⟨by simp [memText_of_mem hs], hmk s hs⟩)
  refine ⟨?_, ?_, ?_, ?_, ?_⟩
  · show (L.filter fun s => memText L s.text && ! memText L s.text).length = 0
    rw [hfilter]
    rfl
  · show (L.filter fun s => memText L s.text && ! memText L s.text).length = 0
    rw [hfilter]
    rfl
  · show (classifyCommon L (fun t => memText L t && memText L t) L).1.length = 0
    rw [hclass]
    rfl
  · show (classifyCommon L (fun t => memText L t && memText L t) L).2.length = L.length
    rw [hclass]
  · show (classifyCommon L (fun t => memText L t && memText L t) L).2 = L
    rw [hclass]

/-- Witness for C3: the self-comparison of the distinct-key list
`prevMixed` has empty new/disappeared/moved partitions and keeps all three
records unchanged. -/
theorem c3_self_compare_witness :
    (texts prevMixed).Nodup
    ∧ ((compare_snapshots prevMixed prevMixed).summary.new_count = 0
      ∧ (compare_snapshots prevMixed prevMixed).summary.disappeared_count = 0
      ∧ (compare_snapshots prevMixed prevMixed).summary.position_change_count = 0
      ∧ (compare_snapshots prevMixed prevMixed).summary.unchanged_count = prevMixed.length
      ∧ (compare_snapshots prevMixed prevMixed).unchanged = prevMixed) :=
  ⟨by decide, c3_self_compare prevMixed (by decide)⟩

/-- Counterexample to C3 as stated: self-comparing the duplicate-key list
`dupCurr` produces one position change (the first occurrence of "a" against
the last-wins map entry) and only one unchanged record, not zero moved and
two unchanged. -/
theorem c3_counterexample :
    ¬ ((compare_snapshots dupCurr dupCurr).summary.new_count = 0
      ∧ (compare_snapshots dupCurr dupCurr).summary.disappeared_count = 0
      ∧ (compare_snapshots dupCurr dupCurr).summary.position_change_count = 0
      ∧ (compare_snapshots dupCurr dupCurr).summary.unchanged_count = dupCurr.length) := by
  decide

/-- Claim C4: the diff summary always reports `total_previous =
len(previous)` and `total_current = len(current)`, and the fully empty
comparison returns four empty partitions and an all-zero summary. -/
theorem c4_summary_totals (previous current : List Rec) :
    ((compare_snapshots previous current).summary.total_previous = previous.length
      ∧ (compare_snapshots previous current).summary.total_current = current.length)
    ∧ ((compare_snapshots ([] : List Rec) ([] : List Rec)).new_suggestions = []
      ∧ (compare_snapshots ([] : List Rec) ([] : List Rec)).disappeared = []
      ∧ (compare_snapshots ([] : List Rec) ([] : List Rec)).position_changes = []
      ∧ (compare_snapshots ([] : List Rec) ([] : List Rec)).unchanged = []
      ∧ (compare_snapshots ([] : List Rec) ([] : List Rec)).summary
          = { new_count := 0, disappeared_count := 0, position_change_count := 0,
              unchanged_count := 0, total_previous := 0, total_current := 0 }) :=
  ⟨⟨rfl, rfl⟩, rfl, rfl, rfl, rfl, rfl⟩

-- ── the suggestion table (database.py) ────────────────────────────────

/-- One row of the `suggestions` table (database.py schema, lines 71–83).
Timestamps are seconds; `sentiment_score` (SQL `REAL`) is modelled as a
rational, which the embedded code only stores and copies. -/
structure SugRow where
  id : Nat
  snapshot_id : Nat
  brand_id : Nat
  text : String
  position : Option Int
  sentiment : Option String
  sentiment_score : Option ℚ
  category : Option String
  first_seen : Nat
  last_seen : Nat
  times_seen : Nat
deriving DecidableEq, Repr

/-- The mutable state of the suggestions table: the rows in insertion
order plus the next `AUTOINCREMENT` id. -/
structure DBState where
  suggestions : List SugRow
  next_id : Nat
deriving DecidableEq, Repr

/-- The `SELECT id, times_seen FROM suggestions WHERE brand_id = ? AND
text = ?` lookup of `upsert_suggestion` (`fetchone` returns the first
matching row). -/
def lookupSug (st : DBState) (brand_id : Nat) (text : String) : Option SugRow :=
  st.suggestions.find? (fun r => r.brand_id == brand_id && r.text == text)

/-- `Database.upsert_suggestion` (database.py, lines 236–297): update the
existing `(brand, text)` row — bumping `times_seen`, refreshing
`last_seen` and the rank/sentiment fields, leaving `first_seen` alone —
or insert a fresh row with `first_seen = last_seen = now` and the schema
default `times_seen = 1`. Returns the new state and the row id. -/
def upsert_suggestion (st : DBState) (now : Nat) (snapshot_id brand_id : Nat) (text : String)
    (position : Option Int) (sentiment : Option String) (sentiment_score : Option ℚ)
    (category : Option String) : DBState × Nat :=
  match st.suggestions.find? (fun r => r.brand_id == brand_id && r.text == text) with
  | some existing =>
    ({ st with
        suggestions := st.suggestions.map (fun r =>
          if r.id == existing.id then
            { r with
                snapshot_id := snapshot_id
                position := position
                sentiment := sentiment
                sentiment_score := sentiment_score
                category := category
                last_seen := now
                times_seen := existing.times_seen + 1 }
          else r) },
      existing.id)
  | none =>
    ({ suggestions := st.suggestions ++
        [{ id := st.next_id
           snapshot_id := snapshot_id
           brand_id := brand_id
           text := text
           position := position
           sentiment := sentiment
           sentiment_score := sentiment_score
           category := category
           first_seen := now
           last_seen := now
           times_seen := 1 }]
       next_id := st.next_id + 1 },
      st.next_id)

theorem find?_map_of_pred_invariant {α : Type} {p : α → Bool} {u : α → α}
    (hu : ∀ a, p (u a) = p a) (l : List α) :
    (l.map u).find? p = (l.find? p).map u := by
  induction l with
  | nil => rfl
  | cons a rest ih =>
    rw [List.map_cons, List.find?_cons, List.find?_cons, hu a]
    cases hpa : p a
    · simp [hpa, ih]
    · simp [hpa]

/-- Claim C5: `upsert_suggestion` inserts a fresh `(brand, text)` row with
`times_seen = 1` and `first_seen = last_seen = now`; on a subsequent call
for the same pair it returns the existing row id and the stored row gains
exactly one `times_seen`, takes the call's rank/sentiment/score/category
and snapshot reference, advances `last_seen` to `now`, and keeps its
original `first_seen`. -/
theorem c5_upsert_semantics (st : DBState) (now snapshot_id brand_id : Nat) (text : String)
    (position : Option Int) (sentiment : Option String) (sentiment_score : Option ℚ)
    (category : Option String) :
    match lookupSug st brand_id text with
    | none =>
      (upsert_suggestion st now snapshot_id brand_id text position sentiment sentiment_score
          category).2 = st.next_id
      ∧ lookupSug (upsert_suggestion st now snapshot_id brand_id text position sentiment
          sentiment_score category).1 brand_id text
        = some { id := st.next_id, snapshot_id := snapshot_id, brand_id := brand_id, text := text,
                 position := position, sentiment := sentiment,
                 sentiment_score := sentiment_score, category := category,
                 first_seen := now, last_seen := now, times_seen := 1 }
    | some ex =>
      (upsert_suggestion st now snapshot_id brand_id text position sentiment sentiment_score
          category).2 = ex.id
      ∧ lookupSug (upsert_suggestion st now snapshot_id brand_id text position sentiment
          sentiment_score category).1 brand_id text
        = some { ex with
            snapshot_id := snapshot_id, position := position, sentiment := sentiment,
            sentiment_score := sentiment_score, category := category,
            last_seen := now, times_seen := ex.times_seen + 1 } := by
  rcases hfind : lookupSug st brand_id text with _ | ex
  · simp only [hfind]
    have hfind' : st.suggestions.find? (fun r => r.brand_id == brand_id && r.text == text)
        = none := hfind
    refine ⟨?_, ?_⟩
    · simp [upsert_suggestion, hfind']
    · simp only [upsert_suggestion, hfind']
      unfold lookupSug
      simp only [List.find?_append, hfind', Option.none_or]
      rw [List.find?_cons]
      simp
  · simp only [hfind]
    have hfind' : st.suggestions.find? (fun r => r.brand_id == brand_id && r.text == text)
        = some ex := hfind
    refine ⟨?_, ?_⟩
    · simp [upsert_suggestion, hfind']
    · simp only [upsert_suggestion, hfind']
      unfold lookupSug
      rw [find?_map_of_pred_invariant]
      · rw [hfind']
        simp only [Option.map_some']
        congr 1
        rw [if_pos (by simp)]
      · intro r
        by_cases hr : r.id == ex.id
        · simp [hr]
        · simp [hr]

-- ── time-windowed queries and trend detection ─────────────────────────

/-- Seconds per day: `timedelta(days=d)` is `d * secPerDay` seconds. -/
def secPerDay : Nat := 86400

/-- The `DATE(ts)` component of a timestamp, as a day number. -/
def dateOf (ts : Nat) : Nat := ts / secPerDay

/-- The `ORDER BY last_seen DESC` comparator. -/
def lastSeenDesc (a b : SugRow) : Bool := b.last_seen ≤ a.last_seen

/-- The `ORDER BY first_seen DESC` comparator. -/
def firstSeenDesc (a b : SugRow) : Bool := b.first_seen ≤ a.first_seen

/-- The `ORDER BY DATE(first_seen)` (ascending) comparator. -/
def dateAsc (a b : Nat) : Bool := a ≤ b

/-- `Database.get_suggestions_for_brand` (database.py, lines 299–319):
brand rows, optionally restricted to `last_seen` within `days` and to one
sentiment label, ordered by `last_seen` descending. -/
def get_suggestions_for_brand (db : List SugRow) (brand_id now : Nat)
    (days : Option Nat) (sentiment : Option String) : List SugRow :=
  (db.filter (fun r =>
      r.brand_id == brand_id
      && (match days with
          | none => true
          | some d => decide (now - d * secPerDay ≤ r.last_seen))
      && (match sentiment with
          | none => true
          | some sen => r.sentiment == some sen))).mergeSort lastSeenDesc

/-- `Database.get_new_suggestions` (database.py, lines 333–342): brand rows
first seen within the last `since_days`, newest first. -/
def get_new_suggestions (db : List SugRow) (brand_id now since_days : Nat) : List SugRow :=
  (db.filter (fun r =>
      r.brand_id == brand_id
      && decide (now - since_days * secPerDay ≤ r.first_seen))).mergeSort firstSeenDesc

/-- `Database.get_disappeared_suggestions` (database.py, lines 344–353):
brand rows whose `last_seen` precedes the cutoff. -/
def get_disappeared_suggestions (db : List SugRow) (brand_id now not_seen_days : Nat) :
    List SugRow :=
  (db.filter (fun r =>
      r.brand_id == brand_id
      && decide (r.last_seen < now - not_seen_days * secPerDay))).mergeSort lastSeenDesc

/-- One row of `get_daily_sentiment_counts`. -/
structure DayCounts where
  date : Nat
  negative : Nat
  positive : Nat
  neutral : Nat
  total : Nat
deriving DecidableEq, Repr

/-- `Database.get_daily_sentiment_counts` (database.py, lines 355–371): one
group per distinct `DATE(first_seen) ≥ cutoff` among the brand's rows, with
per-sentiment tallies and the group size, ordered by date ascending. -/
def get_daily_sentiment_counts (db : List SugRow) (brand_id now days : Nat) : List DayCounts :=
  let cutoff := dateOf (now - days * secPerDay)
  let rows := db.filter (fun r =>
    r.brand_id == brand_id && decide (cutoff ≤ dateOf r.first_seen))
  let dates := ((rows.map (fun r => dateOf r.first_seen)).dedup).mergeSort dateAsc
  dates.map (fun d =>
    let dayRows := rows.filter (fun r => dateOf r.first_seen == d)
    { date := d
      negative := (dayRows.filter (fun r => r.sentiment == some "negative")).length
      positive := (dayRows.filter (fun r => r.sentiment == some "positive")).length
      neutral := (dayRows.filter (fun r => r.sentiment == some "neutral")).length
      total := dayRows.length })

/-- Round half-to-even to an integer, as Python's `round`. -/
def roundHE (q : ℚ) : ℤ :=
  if Even ⌊q⌋ then ⌈q - 1/2⌉ else ⌊q + 1/2⌋

/-- `round(x, 4)`: round half-to-even at four decimal places. -/
def round4 (q : ℚ) : ℚ := (roundHE (q * 10000) : ℚ) / 10000

/-- One point of the negative-ratio series:
`{"date": ..., "ratio": ...}` (the ratio is stored rounded). -/
structure TrendPoint where
  date : Nat
  ratio4 : ℚ
deriving DecidableEq, Repr

/-- The result of `detect_trends`. -/
structure Trends where
  rising_negative : List SugRow
  declining_negative : List SugRow
  persistent_negative : List SugRow
  negative_ratio_trend : List TrendPoint
deriving DecidableEq, Repr

/-- `DiffAnalyzer.detect_trends` (diff.py, lines 92–127). -/
def detect_trends (db : List SugRow) (brand_id now days : Nat) : Trends :=
  let rising := get_new_suggestions db brand_id now 7
  let rising_negative := rising.filter (fun s => s.sentiment == some "negative")
  let disappeared := get_disappeared_suggestions db brand_id now 7
  let declining_negative := disappeared.filter (fun s => s.sentiment == some "negative")
  let all_suggestions := get_suggestions_for_brand db brand_id now none (some "negative")
  let persistent_negative := all_suggestions.filter (fun s => decide (3 ≤ s.times_seen))
  let daily := get_daily_sentiment_counts db brand_id now days
  let negative_ratio_trend := daily.map (fun row =>
    { date := row.date
      ratio4 := if 0 < row.total then round4 ((row.negative : ℚ) / (row.total : ℚ)) else 0
      : TrendPoint })
  { rising_negative := rising_negative
    declining_negative := declining_negative
    persistent_negative := persistent_negative
    negative_ratio_trend := negative_ratio_trend }

/-- Claim C6: the persistent-negative list of `detect_trends` holds exactly
the brand's rows with negative sentiment and `times_seen ≥ 3`, regardless
of recency; in particular `times_seen = 2` is excluded and
`times_seen = 3` is included. -/
theorem c6_persistent_negative (db : List SugRow) (brand_id now days : Nat) (s : SugRow) :
    s ∈ (detect_trends db brand_id now days).persistent_negative
      ↔ s ∈ db ∧ s.brand_id = brand_id ∧ s.sentiment = some "negative" ∧ 3 ≤ s.times_seen := by
  show s ∈ (get_suggestions_for_brand db brand_id now none (some "negative")).filter
      (fun s => decide (3 ≤ s.times_seen)) ↔ _
  rw [List.mem_filter]
  unfold get_suggestions_for_brand
  rw [List.mem_mergeSort, List.mem_filter]
  simp only [Bool.and_eq_true, beq_iff_eq, decide_eq_true_eq]
  tauto

/-- Claim C10: the rising/declining/persistent negative lists computed by
`detect_trends` do not depend on the `days` argument — the recent windows
are fixed at 7 days — while `days` enters only through the daily series
behind `negative_ratio_trend`. -/
theorem c10_fixed_seven_day_windows (db : List SugRow) (brand_id now d1 d2 : Nat) :
    ((detect_trends db brand_id now d1).rising_negative
        = (detect_trends db brand_id now d2).rising_negative
      ∧ (detect_trends db brand_id now d1).declining_negative
        = (detect_trends db brand_id now d2).declining_negative
      ∧ (detect_trends db brand_id now d1).persistent_negative
        = (detect_trends db brand_id now d2).persistent_negative)
    ∧ (detect_trends db brand_id now d1).rising_negative
        = (get_new_suggestions db brand_id now 7).filter
            (fun s => s.sentiment == some "negative")
    ∧ (detect_trends db brand_id now d1).declining_negative
        = (get_disappeared_suggestions db brand_id now 7).filter
            (fun s => s.sentiment == some "negative")
    ∧ (detect_trends db brand_id now d1).negative_ratio_trend
        = (get_daily_sentiment_counts db brand_id now d1).map (fun row =>
            { date := row.date
              ratio4 := if 0 < row.total then round4 ((row.negative : ℚ) / (row.total : ℚ))
                else 0 }) :=
  ⟨⟨rfl, rfl, rfl⟩, rfl, rfl, rfl⟩

theorem map_apply_id {α : Type} (l : List Nat) (f : Nat → α) (g : α → Nat)
    (h : ∀ d, g (f d) = d) : (l.map f).map g = l := by
  induction l with
  | nil => rfl
  | cons a rest ih => simp [h, ih]

theorem map_congr_fun {α β : Type} (l : List α) (f g : α → β) (h : ∀ a, f a = g a) :
    l.map f = l.map g := by
  induction l with
  | nil => rfl
  | cons a rest ih => simp [h, ih]

theorem trend_dates_eq (db : List SugRow) (brand_id now days : Nat) :
    (detect_trends db brand_id now days).negative_ratio_trend.map TrendPoint.date
      = (get_daily_sentiment_counts db brand_id now days).map DayCounts.date := by
  simp only [detect_trends]
  rw [List.map_map]
  rfl

theorem daily_dates_eq (db : List SugRow) (brand_id now days : Nat) :
    (get_daily_sentiment_counts db brand_id now days).map DayCounts.date
      = (((db.filter (fun r => r.brand_id == brand_id
            && decide (dateOf (now - days * secPerDay) ≤ dateOf r.first_seen))).map
          (fun r => dateOf r.first_seen)).dedup).mergeSort dateAsc := by
  simp only [get_daily_sentiment_counts]
  exact map_apply_id _ _ _ (fun d => rfl)

theorem mem_daily_dates {db : List SugRow} {brand_id now days d : Nat} :
    d ∈ (get_daily_sentiment_counts db brand_id now days).map DayCounts.date
      ↔ ∃ r, r ∈ db ∧ r.brand_id = brand_id
          ∧ dateOf (now - days * secPerDay) ≤ dateOf r.first_seen
          ∧ dateOf r.first_seen = d := by
  rw [daily_dates_eq, List.mem_mergeSort, List.mem_dedup, List.mem_map]
  constructor
  · rintro ⟨r, hr, rfl⟩
    obtain ⟨hdb, hcond⟩ := List.mem_filter.mp hr
    simp only [Bool.and_eq_true, beq_iff_eq, decide_eq_true_eq] at hcond
    exact ⟨r, hdb, hcond.1, hcond.2, rfl⟩
  · rintro ⟨r, hdb, hb, hcut, rfl⟩
    exact ⟨r, List.mem_filter.mpr ⟨hdb, by simp [hb, hcut]⟩, rfl⟩

theorem dateAsc_trans : ∀ a b c : Nat, dateAsc a b = true → dateAsc b c = true →
    dateAsc a c = true := by
  intro a b c hab hbc
  unfold dateAsc at *
  simp only [decide_eq_true_eq] at *
  omega

theorem dateAsc_total : ∀ a b : Nat, (dateAsc a b || dateAsc b a) = true := by
  intro a b
  unfold dateAsc
  simp only [Bool.or_eq_true, decide_eq_true_eq]
  omega

theorem daily_dates_sorted (db : List SugRow) (brand_id now days : Nat) :
    ((get_daily_sentiment_counts db brand_id now days).map DayCounts.date).Pairwise (· < ·) := by
  rw [daily_dates_eq]
  have hle := List.sorted_mergeSort dateAsc_trans dateAsc_total
    (((db.filter (fun r => r.brand_id == brand_id
        && decide (dateOf (now - days * secPerDay) ≤ dateOf r.first_seen))).map
      (fun r => dateOf r.first_seen)).dedup)
  have hnd : (((db.filter (fun r => r.brand_id == brand_id
        && decide (dateOf (now - days * secPerDay) ≤ dateOf r.first_seen))).map
      (fun r => dateOf r.first_seen)).dedup.mergeSort dateAsc).Nodup :=
    ((List.mergeSort_perm _ _).nodup_iff).mpr (List.nodup_dedup _)
  refine (hle.and hnd).imp ?_
  rintro a b ⟨h1, h2⟩
  unfold dateAsc at h1
  simp only [decide_eq_true_eq] at h1
  omega

theorem daily_bucket_eq (db : List SugRow) (brand_id cutoff d : Nat) (hcd : cutoff ≤ d) :
    (db.filter (fun r => r.brand_id == brand_id && decide (cutoff ≤ dateOf r.first_seen))).filter
        (fun r => dateOf r.first_seen == d)
      = db.filter (fun r => r.brand_id == brand_id && dateOf r.first_seen == d) := by
  rw [List.filter_filter]
  apply List.filter_congr
  intro r _
  by_cases hd : dateOf r.first_seen = d
  · simp [hd, hcd]
  · simp [beq_eq_false_iff_ne.mpr hd]

theorem bucket_sum (rows : List SugRow) :
    (((rows.map (fun r => dateOf r.first_seen)).dedup.mergeSort dateAsc).map
        (fun d => (rows.filter (fun r => dateOf r.first_seen == d)).length)).sum
      = rows.length := by
  have hperm : ((rows.map (fun r => dateOf r.first_seen)).dedup.mergeSort dateAsc).map
        (fun d => (rows.filter (fun r => dateOf r.first_seen == d)).length)
      |>.Perm (((rows.map (fun r => dateOf r.first_seen)).dedup).map
        (fun d => (rows.filter (fun r => dateOf r.first_seen == d)).length)) :=
    (List.mergeSort_perm _ _).map _
  rw [hperm.sum_eq]
  have hpt : ∀ d, (rows.filter (fun r => dateOf r.first_seen == d)).length
      = (rows.map (fun r => dateOf r.first_seen)).count d := by
    intro d
    calc (rows.filter (fun r => dateOf r.first_seen == d)).length
        = List.countP (fun r => dateOf r.first_seen == d) rows :=
          (List.countP_eq_length_filter _ _).symm
      _ = List.countP ((fun x => x == d) ∘ (fun r => dateOf r.first_seen)) rows := rfl
      _ = List.countP (fun x => x == d) (rows.map (fun r => dateOf r.first_seen)) :=
          (List.countP_map _ _ _).symm
      _ = (rows.map (fun r => dateOf r.first_seen)).count d := rfl
  rw [map_congr_fun _ _ _ hpt, List.sum_map_count_dedup_eq_length, List.length_map]

theorem daily_total_sum (db : List SugRow) (brand_id now days : Nat) :
    ((get_daily_sentiment_counts db brand_id now days).map DayCounts.total).sum
      = (db.filter (fun r => r.brand_id == brand_id
          && decide (dateOf (now - days * secPerDay) ≤ dateOf r.first_seen))).length := by
  simp only [get_daily_sentiment_counts]
  rw [List.map_map]
  exact bucket_sum (db.filter (fun r => r.brand_id == brand_id
    && decide (dateOf (now - days * secPerDay) ≤ dateOf r.first_seen)))

/-- Claim C7 (amended): the negative-ratio series of `detect_trends` has
one entry per day in the lookback window holding at least one recorded
suggestion — days bucketed by the date component of `first_seen`, each
suggestion counted in exactly one bucket — ordered chronologically, and
each entry's ratio equals `negative_count / total_count` for its day,
rounded half-to-even at four decimal places (the code's `round(x, 4)`). -/
theorem c7_negative_ratio_trend (db : List SugRow) (brand_id now days : Nat) :
    (∀ d, d ∈ (detect_trends db brand_id now days).negative_ratio_trend.map TrendPoint.date
        ↔ ∃ r, r ∈ db ∧ r.brand_id = brand_id
            ∧ dateOf (now - days * secPerDay) ≤ dateOf r.first_seen
            ∧ dateOf r.first_seen = d)
    ∧ ((detect_trends db brand_id now days).negative_ratio_trend.map TrendPoint.date).Pairwise
        (· < ·)
    ∧ (∀ p, p ∈ (detect_trends db brand_id now days).negative_ratio_trend →
        0 < (db.filter (fun r => r.brand_id == brand_id
              && dateOf r.first_seen == p.date)).length
        ∧ dateOf (now - days * secPerDay) ≤ p.date
        ∧ p.ratio4 = round4
            ((((db.filter (fun r => r.brand_id == brand_id
                  && dateOf r.first_seen == p.date)).filter
                  (fun r => r.sentiment == some "negative")).length : ℚ)
              / ((db.filter (fun r => r.brand_id == brand_id
                  && dateOf r.first_seen == p.date)).length : ℚ)))
    ∧ ((get_daily_sentiment_counts db brand_id now days).map DayCounts.total).sum
        = (db.filter (fun r => r.brand_id == brand_id
            && decide (dateOf (now - days * secPerDay) ≤ dateOf r.first_seen))).length := by
  refine ⟨?_, ?_, ?_, daily_total_sum db brand_id now days⟩
  · intro d
    rw [trend_dates_eq]
    exact mem_daily_dates
  · rw [trend_dates_eq]
    exact daily_dates_sorted db brand_id now days
  · intro p hp
    simp only [detect_trends] at hp
    obtain ⟨row, hrow, hpe⟩ := List.mem_map.mp hp
    simp only [get_daily_sentiment_counts] at hrow
    obtain ⟨d, hd, hre⟩ := List.mem_map.mp hrow
    have hdm : d ∈ (get_daily_sentiment_counts db brand_id now days).map DayCounts.date := by
      rw [daily_dates_eq]
      exact hd
    obtain ⟨r, hrdb, hrb, hrcut, hrd⟩ := mem_daily_dates.mp hdm
    have hcd : dateOf (now - days * secPerDay) ≤ d := hrd ▸ hrcut
    have hfdate : p.date = d := by
      rw [← hpe, ← hre]
    have hbe := daily_bucket_eq db brand_id (dateOf (now - days * secPerDay)) d hcd
    have hrrows : r ∈ (db.filter (fun r => r.brand_id == brand_id
        && decide (dateOf (now - days * secPerDay) ≤ dateOf r.first_seen))) :=
      List.mem_filter.mpr ⟨hrdb, by simp [hrb, hrcut]⟩
    have hrday : r ∈ (db.filter (fun r => r.brand_id == brand_id
        && decide (dateOf (now - days * secPerDay) ≤ dateOf r.first_seen))).filter
          (fun r => dateOf r.first_seen == d) :=
      List.mem_filter.mpr ⟨hrrows, by simp [hrd]⟩
    have hlen : 0 < ((db.filter (fun r => r.brand_id == brand_id
        && decide (dateOf (now - days * secPerDay) ≤ dateOf r.first_seen))).filter
          (fun r => dateOf r.first_seen == d)).length :=
      List.length_pos.mpr (List.ne_nil_of_mem hrday)
    have hlenB : 0 < (db.filter
        (fun r => r.brand_id == brand_id && dateOf r.first_seen == d)).length := by
      rw [← hbe]
      exact hlen
    have hfratio : p.ratio4 =
        if 0 < ((db.filter (fun r => r.brand_id == brand_id
            && decide (dateOf (now - days * secPerDay) ≤ dateOf r.first_seen))).filter
              (fun r => dateOf r.first_seen == d)).length then
          round4 (((((db.filter (fun r => r.brand_id == brand_id
              && decide (dateOf (now - days * secPerDay) ≤ dateOf r.first_seen))).filter
                (fun r => dateOf r.first_seen == d)).filter
                (fun r => r.sentiment == some "negative")).length : ℚ)
            / (((db.filter (fun r => r.brand_id == brand_id
              && decide (dateOf (now - days * secPerDay) ≤ dateOf r.first_seen))).filter
                (fun r => dateOf r.first_seen == d)).length : ℚ))
        else 0 := by
      rw [← hpe, ← hre]
    refine ⟨?_, ?_, ?_⟩
    · rw [hfdate]
      exact hlenB
    · rw [hfdate]
      exact hcd
    · rw [hfdate, hfratio, hbe, if_pos hlenB]

/-- A concrete "now": day 100. -/
def nowC7 : Nat := 100 * secPerDay

/-- A concrete suggestion row for brand 1, first and last seen on day 90,
with the given id and sentiment label. -/
def rowC7 (i : Nat) (sent : String) : SugRow :=
  { id := i, snapshot_id := 1, brand_id := 1, text := "t", position := none,
    sentiment := some sent, sentiment_score := none, category := none,
    first_seen := 90 * secPerDay, last_seen := 90 * secPerDay, times_seen := 1 }

/-- Three same-day suggestions for brand 1: one negative, two neutral, so
the day's exact negative ratio is 1/3. -/
def dbC7 : List SugRow := [rowC7 1 "negative", rowC7 2 "neutral", rowC7 3 "neutral"]

theorem round4_third : round4 ((1 : ℚ)/3) = 3333/10000 := by
  unfold round4 roundHE
  norm_num
  rw [if_neg (by decide)]

theorem dailyC7_eq : get_daily_sentiment_counts dbC7 1 nowC7 30
    = [{ date := 90, negative := 1, positive := 0, neutral := 2, total := 3 }] := by
  simp only [get_daily_sentiment_counts]
  have h1 : dbC7.filter (fun r => r.brand_id == 1
      && decide (dateOf (nowC7 - 30 * secPerDay) ≤ dateOf r.first_seen)) = dbC7 := by decide
  rw [h1]
  have h2 : (dbC7.map (fun r => dateOf r.first_seen)).dedup = [90] := by decide
  rw [h2, List.mergeSort_singleton]
  simp only [List.map_cons, List.map_nil]
  decide

/-- Counterexample to C7 as stated: on `dbC7` (one negative among three
same-day suggestions) the stored entry's ratio is `round(1/3, 4) = 0.3333`,
which is not equal to the day's exact `negative_count / total_count = 1/3`.
-/
theorem c7_counterexample :
    (detect_trends dbC7 1 nowC7 30).negative_ratio_trend
        = [{ date := 90, ratio4 := (3333 : ℚ)/10000 }]
    ∧ ((((dbC7.filter (fun r => r.brand_id == 1 && dateOf r.first_seen == 90)).filter
          (fun r => r.sentiment == some "negative")).length : ℚ)
        / ((dbC7.filter (fun r => r.brand_id == 1 && dateOf r.first_seen == 90)).length : ℚ))
        = 1/3
    ∧ ((3333 : ℚ)/10000) ≠ 1/3 := by
  refine ⟨?_, ?_, by norm_num⟩
  · simp only [detect_trends]
    rw [dailyC7_eq]
    simp only [List.map_cons, List.map_nil]
    norm_num [round4_third]
  · have ha : ((dbC7.filter (fun r => r.brand_id == 1 && dateOf r.first_seen == 90)).filter
        (fun r => r.sentiment == some "negative")).length = 1 := by decide
    have hb : (dbC7.filter
        (fun r => r.brand_id == 1 && dateOf r.first_seen == 90)).length = 3 := by decide
    rw [ha, hb]
    norm_num

-- ── scan orchestration (scanner.py) ───────────────────────────────────

/-- The database/engine events issued by `ScanEngine.scan_brand`, in the
order its body performs them (scanner.py, lines 71–160): collection, the
previous-state reads of step 4, the snapshot insert of step 5, the
per-suggestion upserts (each carrying the snapshot id it references), the
diff of step 6, and the notification step. -/
inductive ScanEvent where
  | collect : ScanEvent
  | readPrevSnapshot : ScanEvent
  | readPrevSuggestions : ScanEvent
  | writeSnapshot : Nat → ScanEvent
  | upsertSug : Nat → Nat → ScanEvent
  | runDiff : ScanEvent
  | notifyAlerts : ScanEvent
deriving DecidableEq, Repr

/-- The program-order phase of each event in `scan_brand`'s body. -/
def scanPhase : ScanEvent → Nat
  | ScanEvent.collect => 0
  | ScanEvent.readPrevSnapshot => 1
  | ScanEvent.readPrevSuggestions => 1
  | ScanEvent.writeSnapshot _ => 2
  | ScanEvent.upsertSug _ _ => 3
  | ScanEvent.runDiff => 4
  | ScanEvent.notifyAlerts => 5

/-- The straight-line event trace of one `scan_brand` call: `hasPrev` is
whether a previous snapshot existed (only then is the previous suggestion
list read), `snapId` the id returned by the snapshot insert, `n` the number
of unique suggestions upserted, and `hasNewNeg` whether notifications were
sent. -/
def scan_brand_trace (hasPrev : Bool) (snapId n : Nat) (hasNewNeg : Bool) : List ScanEvent :=
  [ScanEvent.collect, ScanEvent.readPrevSnapshot]
    ++ ((if hasPrev then [ScanEvent.readPrevSuggestions] else [])
    ++ ([ScanEvent.writeSnapshot snapId]
    ++ ((List.range n).map (fun i => ScanEvent.upsertSug snapId i)
    ++ ([ScanEvent.runDiff]
    ++ (if hasNewNeg then [ScanEvent.notifyAlerts] else [])))))

theorem pairwise_phase_append (l₁ l₂ : List ScanEvent) (k : Nat)
    (h₁ : l₁.Pairwise (fun a b => scanPhase a ≤ scanPhase b))
    (h₂ : l₂.Pairwise (fun a b => scanPhase a ≤ scanPhase b))
    (hb₁ : ∀ e ∈ l₁, scanPhase e ≤ k) (hb₂ : ∀ e ∈ l₂, k ≤ scanPhase e) :
    (l₁ ++ l₂).Pairwise (fun a b => scanPhase a ≤ scanPhase b) :=
  List.pairwise_append.mpr ⟨h₁, h₂, fun a ha b hb => (hb₁ a ha).trans (hb₂ b hb)⟩

theorem pairwise_phase_const (l : List ScanEvent) (k : Nat) (h : ∀ e ∈ l, scanPhase e = k) :
    l.Pairwise (fun a b => scanPhase a ≤ scanPhase b) := by
  induction l with
  | nil => exact List.Pairwise.nil
  | cons a rest ih =>
    refine List.Pairwise.cons (fun b hb => ?_) (ih (fun e he => h e (.tail _ he)))
    rw [h a (.head _), h b (.tail _ hb)]

theorem scan_trace_pairwise (hasPrev : Bool) (snapId n : Nat) (hasNewNeg : Bool) :
    (scan_brand_trace hasPrev snapId n hasNewNeg).Pairwise
      (fun a b => scanPhase a ≤ scanPhase b) := by
  have hseg1 : ∀ e ∈ (if hasPrev then [ScanEvent.readPrevSuggestions] else []),
      scanPhase e = 1 := by
    cases hasPrev <;> simp [scanPhase]
  have hseg5 : ∀ e ∈ (if hasNewNeg then [ScanEvent.notifyAlerts] else []),
      scanPhase e = 5 := by
    cases hasNewNeg <;> simp [scanPhase]
  have hups : ∀ e ∈ (List.range n).map (fun i => ScanEvent.upsertSug snapId i),
      scanPhase e = 3 := by
    intro e he
    obtain ⟨i, _, rfl⟩ := List.mem_map.mp he
    rfl
  have p6 := pairwise_phase_const _ 5 hseg5
  have b6 : ∀ e ∈ (if hasNewNeg then [ScanEvent.notifyAlerts] else []),
      5 ≤ scanPhase e := fun e he => (hseg5 e he).ge
  have p5 := pairwise_phase_append [ScanEvent.runDiff] _ 5
    (pairwise_phase_const _ 4 (by simp [scanPhase])) p6 (by simp [scanPhase]) b6
  have b5 : ∀ e ∈ [ScanEvent.runDiff] ++ (if hasNewNeg then [ScanEvent.notifyAlerts] else []),
      4 ≤ scanPhase e := by
    intro e he
    rcases List.mem_append.mp he with h | h
    · simp at h
      subst h
      exact Nat.le_refl _
    · have := hseg5 e h
      omega
  have p4 := pairwise_phase_append ((List.range n).map (fun i => ScanEvent.upsertSug snapId i))
    _ 4 (pairwise_phase_const _ 3 hups) p5
    (fun e he => by rw [hups e he]; omega) b5
  have b4 : ∀ e ∈ (List.range n).map (fun i => ScanEvent.upsertSug snapId i)
      ++ ([ScanEvent.runDiff] ++ (if hasNewNeg then [ScanEvent.notifyAlerts] else [])),
      3 ≤ scanPhase e := by
    intro e he
    rcases List.mem_append.mp he with h | h
    · exact (hups e h).ge
    · have := b5 e h
      omega
  have p3 := pairwise_phase_append [ScanEvent.writeSnapshot snapId] _ 3
    (pairwise_phase_const _ 2 (by simp [scanPhase])) p4 (by simp [scanPhase]) b4
  have b3 : ∀ e ∈ [ScanEvent.writeSnapshot snapId]
      ++ ((List.range n).map (fun i => ScanEvent.upsertSug snapId i)
        ++ ([ScanEvent.runDiff] ++ (if hasNewNeg then [ScanEvent.notifyAlerts] else []))),
      2 ≤ scanPhase e := by
    intro e he
    rcases List.mem_append.mp he with h | h
    · simp at h
      subst h
      exact Nat.le_refl _
    · have := b4 e h
      omega
  have p2 := pairwise_phase_append (if hasPrev then [ScanEvent.readPrevSuggestions] else []) _ 2
    (pairwise_phase_const _ 1 hseg1) p3 (fun e he => by rw [hseg1 e he]; omega) b3
  have b2 : ∀ e ∈ (if hasPrev then [ScanEvent.readPrevSuggestions] else [])
      ++ ([ScanEvent.writeSnapshot snapId]
        ++ ((List.range n).map (fun i => ScanEvent.upsertSug snapId i)
          ++ ([ScanEvent.runDiff] ++ (if hasNewNeg then [ScanEvent.notifyAlerts] else [])))),
      1 ≤ scanPhase e := by
    intro e he
    rcases List.mem_append.mp he with h | h
    · exact (hseg1 e h).ge
    · have := b3 e h
      omega
  have p1 := pairwise_phase_append [ScanEvent.collect, ScanEvent.readPrevSnapshot] _ 1
    (by simp [List.pairwise_cons, scanPhase]) p2 (by simp [scanPhase]) b2
  unfold scan_brand_trace
  exact p1

/-- Claim C8: within one `scan_brand` call, events whose program phase is
earlier always occupy earlier trace positions — so the previous-state reads
precede the snapshot write and every upsert, the snapshot write precedes
every upsert, and every upsert precedes the diff — and every upsert in the
trace references exactly the snapshot id produced by the snapshot write. -/
theorem c8_scan_ordering (hasPrev hasNewNeg : Bool) (snapId n i j : Nat)
    (hi : i < (scan_brand_trace hasPrev snapId n hasNewNeg).length)
    (hj : j < (scan_brand_trace hasPrev snapId n hasNewNeg).length)
    (h : scanPhase ((scan_brand_trace hasPrev snapId n hasNewNeg).get ⟨i, hi⟩)
        < scanPhase ((scan_brand_trace hasPrev snapId n hasNewNeg).get ⟨j, hj⟩)) :
    i < j
    ∧ ∀ sid k, ScanEvent.upsertSug sid k ∈ scan_brand_trace hasPrev snapId n hasNewNeg →
        sid = snapId := by
  constructor
  · by_contra hij
    have hx : j ≤ i := Nat.not_lt.mp hij
    rcases Nat.lt_or_eq_of_le hx with hji | hji
    · have hp := (List.pairwise_iff_get.mp
        (scan_trace_pairwise hasPrev snapId n hasNewNeg)) ⟨j, hj⟩ ⟨i, hi⟩ hji
      omega
    · subst hji
      exact absurd h (lt_irrefl _)
  · intro sid k hmem
    unfold scan_brand_trace at hmem
    rcases List.mem_append.mp hmem with h1 | h1
    · simp at h1
    rcases List.mem_append.mp h1 with h2 | h2
    · cases hasPrev <;> simp at h2
    rcases List.mem_append.mp h2 with h3 | h3
    · simp at h3
    rcases List.mem_append.mp h3 with h4 | h4
    · obtain ⟨x, _, he⟩ := List.mem_map.mp h4
      exact (((ScanEvent.upsertSug.injEq _ _ _ _).mp he).1).symm
    rcases List.mem_append.mp h4 with h5 | h5
    · simp at h5
    · cases hasNewNeg <;> simp at h5

/-- Witness for C8: in the trace with a previous snapshot, snapshot id 5,
two upserts and a notification, the previous-state read at index 1 precedes
the snapshot write at index 3, and both upserts reference id 5. -/
theorem c8_scan_ordering_witness :
    (1 : Nat) < 3
    ∧ ∀ sid k, ScanEvent.upsertSug sid k ∈ scan_brand_trace true 5 2 true → sid = 5 :=
  c8_scan_ordering true true 5 2 1 3 (by decide) (by decide) (by decide)

/-- The keys of the report dict returned by a successful
`ScanEngine.scan_brand` call (scanner.py, lines 151–160), in source
order. -/
def scan_brand_report_keys : List String :=
  ["brand_id", "brand_name", "snapshot_id", "total_queries", "total_suggestions",
   "summary", "diff", "new_negatives"]

/-- The keys of the report dict that `ScanEngine.scan_all` appends for a
brand whose scan raised (scanner.py, lines 181–187); its `"error"` entry
holds `True`. -/
def scan_all_error_report_keys : List String :=
  ["brand_id", "brand_name", "error"]

/-- Whether a report dict carries an explicit `"error"` entry. -/
def reportHasErrorFlag (keys : List String) : Bool :=
  keys.contains "error"

/-- Counterexample to C9 as stated: the successful `scan_brand` report has
no `"error"` key at all, so not every per-brand report carries an explicit
error flag. -/
theorem c9_counterexample :
    ¬ (reportHasErrorFlag scan_brand_report_keys = true
      ∧ reportHasErrorFlag scan_all_error_report_keys = true) := by
  decide

/-- Claim C9 (amended): only the failure report produced by `scan_all` for
a brand whose scan raised carries the explicit `error` flag (set to true);
a successful `scan_brand` report contains no `error` key — success is
indicated by the flag's absence, which consumers read with a falsy
default. -/
theorem c9_error_flag_reports :
    reportHasErrorFlag scan_all_error_report_keys = true
    ∧ reportHasErrorFlag scan_brand_report_keys = false := by
  decide

end SuggestGuard
